import Mathlib

/-!
Verification development for a directory-synchronization tool
(`filesync`): a shallow embedding of its core module
(`filesync_core.py`) together with theorems about the change-detection
and reconciliation engine.

Modelling conventions:
* A relative path is a list of path components (`Path`); the last
  component is the file's basename, the earlier ones are the
  directories between the scan root and the file.
* A directory tree is an association list from relative path to `File`
  (content plus a readability flag).  Python dictionaries are modelled
  as association lists looked up by first match; where dictionary-key
  uniqueness matters, theorems carry a `Nodup` hypothesis on the key
  list, which every Python `dict` satisfies by construction.
* Hashing is modelled by an abstract deterministic digest function
  `Ctx.h : String → String` applied to a file's content; a failed hash
  computation (the `None` returned by `get_file_hash` on an IO error)
  is `Option.none`, and a file whose `readable` flag is false is one
  whose hash computation fails.
* Console input is a list of strings consumed in order; a run that
  exhausts its input inside a blocking prompt is modelled as `none`.
-/

namespace FileSync

abbrev Path : Type := List String

/-- One file on disk: its byte content and whether reading it (for
hashing or copying) succeeds. -/
structure File where
  content : String
  readable : Bool
  deriving DecidableEq, Repr

/-- A directory tree: association list from relative path to file. -/
abbrev Tree : Type := List (Path × File)

/-- A loaded hash database (`.syncdb.json`): relative path to recorded
hash, where `Option.none` models a JSON `null` entry. -/
abbrev DB : Type := List (Path × Option String)

/-- One entry of a scan result, mirroring the
`{'full_path': ..., 'hash': ...}` dictionaries built by
`FileSync.scan_folder`. -/
structure Entry where
  full_path : Path
  hash : Option String
  deriving DecidableEq, Repr

/-- A scan result: relative path to entry, mirroring the dictionary
returned by `FileSync.scan_folder`. -/
abbrev Scan : Type := List (Path × Entry)

/-- The summary dictionary built by `FileSync.scan_changes`. -/
structure Summary where
  src_count : Nat
  dest_count : Nat
  new : List Path
  modified : List Path
  deleted : List Path
  deriving DecidableEq, Repr

/-- The ambient configuration: the digest function used by
`get_file_hash` and the configured `IGNORED_DIRS` set. -/
structure Ctx where
  h : String → String
  ign : List String

/-- The filesystem-and-cache state a sync run starts from: the two
physical roots (`--src` and `--dest`), their trees, and the two loaded
hash databases. -/
structure SyncState where
  srcRoot : Path
  destRoot : Path
  srcTree : Tree
  destTree : Tree
  srcDb : DB
  destDb : DB
  deriving DecidableEq, Repr

/-- First-match association-list lookup, the model of Python
dictionary indexing. -/
def lookupA {β : Type} : List (Path × β) → Path → Option β
  | [], _ => none
  | (q, v) :: t, p => if q = p then some v else lookupA t p

/-- `HASH_DB_FILENAME` from `config.py`. -/
def dbFilename : String := ".syncdb.json"

/-- `hash_db.get(rel_path)` : a missing key and a `null` value are
indistinguishable (both give Python `None`). -/
def dbGet (db : DB) (p : Path) : Option String :=
  match lookupA db p with
  | some v => v
  | none => none

/-- Python truthiness of a hash value: `None` and the empty string are
falsy (`if not file_hash`). -/
def truthy : Option String → Bool
  | none => false
  | some s => decide (s ≠ "")

/-- `FileSync.get_file_hash`: the streamed SHA-256 digest of the
file's bytes, or `none` when reading fails. -/
def get_file_hash (C : Ctx) (f : File) : Option String :=
  if f.readable then some (C.h f.content) else none

/-- A file reached by `os.walk` and not skipped: none of its directory
components is in `IGNORED_DIRS` (the walk prunes such directories
before descending) and its basename is not the hash-database file. -/
def included (C : Ctx) (p : Path) : Bool :=
  p.dropLast.all (fun d => decide (d ∉ C.ign)) &&
    !(decide (p.getLast? = some dbFilename))

/-- The hash recorded for one scanned file: the cached hash when the
cache holds a truthy entry for the relative path, else a fresh
`get_file_hash` computation. -/
def scanHash (C : Ctx) (db : DB) (p : Path) (f : File) : Option String :=
  let c := dbGet db p
  if truthy c then c else get_file_hash C f

/-- The scan entry built for one file in `FileSync.scan_folder`. -/
def mkEntry (C : Ctx) (root : Path) (db : DB) (p : Path) (f : File) : Entry :=
  { full_path := root ++ p, hash := scanHash C db p f }

/-- `FileSync.scan_folder`: walk one tree, prune ignored directories,
skip the database file, and record each remaining file's full path and
(cached or computed) hash. -/
def scan_folder (C : Ctx) (root : Path) (t : Tree) (db : DB) : Scan :=
  t.filterMap (fun x =>
    if included C x.1 then some (x.1, mkEntry C root db x.1 x.2) else none)

/-- The diff-classification part of `FileSync.scan_changes`
(lines 275–297): one pass over the source scan producing `new` and
`modified`, and, only when not restoring, one pass over the
destination scan producing `deleted`. -/
def diffSummary (restore : Bool) (srcF destF : Scan) : Summary :=
  { src_count := srcF.length
    dest_count := destF.length
    new := (srcF.filter (fun x => (lookupA destF x.1).isNone)).map Prod.fst
    modified := (srcF.filter (fun x =>
        match lookupA destF x.1 with
        | some d => decide (x.2.hash ≠ d.hash)
        | none => false)).map Prod.fst
    deleted :=
      if restore then []
      else (destF.filter (fun x => (lookupA srcF x.1).isNone)).map Prod.fst }

/-- `FileSync.scan_changes`: resolve the direction (in restore mode the
physical destination is scanned as the logical source), scan both
trees, and classify. Returns `(summary, src_files, dest_files)`. -/
def scan_changes (C : Ctx) (restore : Bool) (st : SyncState) :
    Summary × Scan × Scan :=
  let srcF :=
    if restore then scan_folder C st.destRoot st.destTree st.destDb
    else scan_folder C st.srcRoot st.srcTree st.srcDb
  let destF :=
    if restore then scan_folder C st.srcRoot st.srcTree st.srcDb
    else scan_folder C st.destRoot st.destTree st.destDb
  (diffSummary restore srcF destF, srcF, destF)

/-- Dictionary-style insertion, the model of writing a file at a path
(`shutil.copy2` overwriting any existing target). -/
def treeInsert : Tree → Path → File → Tree
  | [], p, f => [(p, f)]
  | (q, g) :: t, p, f =>
    if q = p then (p, f) :: t else (q, g) :: treeInsert t p f

/-- `os.remove` on the file at relative path `p`. -/
def treeRemove : Tree → Path → Tree
  | [], _ => []
  | (q, g) :: t, p =>
    if q = p then treeRemove t p else (q, g) :: treeRemove t p

/-- `FileSync.copy_file` from the logical source tree into the logical
destination tree: read the bytes at the source path and write them at
the same relative path on the other side. -/
def copyInto (src : Tree) (t : Tree) (p : Path) : Tree :=
  match lookupA src p with
  | some f => treeInsert t p f
  | none => t

/-- Python's `str.lower()` on console input (ASCII case folding),
written over the character list so that it evaluates by kernel
reduction. -/
def strLower (s : String) : String := String.mk (s.data.map Char.toLower)

/-- `FileSync.prompt_delete`'s input loop: consume console answers
until one lowercases to `y` (delete) or `n` (keep); `none` when the
input stream runs out while re-prompting. -/
def promptDeleteLoop : List String → Option (Bool × List String)
  | [] => none
  | a :: rest =>
    if strLower a = "y" then some (true, rest)
    else if strLower a = "n" then some (false, rest)
    else promptDeleteLoop rest

/-- The deletion pass of `FileSync.sync` (lines 350–354): for each
classified-deleted path still present in the destination scan, prompt,
and on an affirmative answer remove the file.  Returns the mutated
tree, the full paths actually deleted, and the unconsumed input. -/
def runDeletes (destF : Scan) :
    Tree → List Path → List String → Option (Tree × List Path × List String)
  | t, [], inputs => some (t, [], inputs)
  | t, p :: ps, inputs =>
    match lookupA destF p with
    | none => runDeletes destF t ps inputs
    | some e =>
      match promptDeleteLoop inputs with
      | none => none
      | some (true, rem) =>
        match runDeletes destF (treeRemove t p) ps rem with
        | none => none
        | some (t2, ds, r) => some (t2, e.full_path :: ds, r)
      | some (false, rem) => runDeletes destF t ps rem

/-- The replacement hash database built during the copy loop of
`FileSync.sync`: every relative path of the logical source scan mapped
to that scan's hash (`updated_src_db[rel_path] = src_hash`, and
identically `updated_dest_db`). -/
def updatedDb (srcF : Scan) : DB :=
  srcF.map (fun x => (x.1, x.2.hash))

/-- The relative paths the copy loop of `FileSync.sync` copies: those
paths of the logical source scan classified New or Modified, in scan
order. -/
def copyRels (summary : Summary) (srcF : Scan) : List Path :=
  (srcF.filter (fun x =>
    decide (x.1 ∈ summary.new) || decide (x.1 ∈ summary.modified))).map Prod.fst

/-- The copy loop of `FileSync.sync` applied to the logical
destination tree. -/
def applyCopies (lsTree ldTree : Tree) (rels : List Path) : Tree :=
  rels.foldl (fun t p => copyInto lsTree t p) ldTree

/-- The outcome of one `FileSync.sync` run: the state left on disk,
the copies performed (source full path, destination full path), the
full paths deleted, the unconsumed console input, and whether the run
stopped at the global confirmation prompt. -/
structure SyncResult where
  state : SyncState
  copies : List (Path × Path)
  deletes : List Path
  remaining : List String
  cancelled : Bool
  deriving DecidableEq, Repr

/-- `FileSync.sync`: scan and classify, stop in scan-only mode, ask
the single global confirmation, then copy every new/modified path from
the logical source to the logical destination, run the deletion pass
(backup direction only), and replace both hash databases with the
logical source scan's hashes.  `none` models a run aborted by input
exhaustion inside a blocking prompt. -/
def sync (C : Ctx) (restore scanOnly : Bool) (st : SyncState)
    (inputs : List String) : Option SyncResult :=
  let scd := scan_changes C restore st
  let summary := scd.1
  let srcF := scd.2.1
  let destF := scd.2.2
  if scanOnly then
    some { state := st, copies := [], deletes := [], remaining := inputs,
           cancelled := false }
  else
    match inputs with
    | [] => none
    | choice :: rest =>
      if strLower choice ≠ "y" then
        some { state := st, copies := [], deletes := [], remaining := rest,
               cancelled := true }
      else
        let srcRootP := if restore then st.destRoot else st.srcRoot
        let destRootP := if restore then st.srcRoot else st.destRoot
        let lsTree := if restore then st.destTree else st.srcTree
        let ldTree := if restore then st.srcTree else st.destTree
        let rels := copyRels summary srcF
        let ldTree2 := applyCopies lsTree ldTree rels
        let copies := rels.map (fun p => (srcRootP ++ p, destRootP ++ p))
        if restore then
          some { state := { srcRoot := st.srcRoot, destRoot := st.destRoot,
                            srcTree := ldTree2, destTree := st.destTree,
                            srcDb := updatedDb srcF, destDb := updatedDb srcF },
                 copies := copies, deletes := [], remaining := rest,
                 cancelled := false }
        else
          match runDeletes destF ldTree2 summary.deleted rest with
          | none => none
          | some (t3, dels, rem) =>
            some { state := { srcRoot := st.srcRoot, destRoot := st.destRoot,
                              srcTree := st.srcTree, destTree := t3,
                              srcDb := updatedDb srcF, destDb := updatedDb srcF },
                   copies := copies, deletes := dels, remaining := rem,
                   cancelled := false }

/-! ### Association-list lemmas -/

theorem lookupA_isSome_iff {β : Type} (l : List (Path × β)) (p : Path) :
    (lookupA l p).isSome ↔ ∃ v, (p, v) ∈ l := by
  induction l with
  | nil => simp [lookupA]
  | cons x t ih =>
    obtain ⟨q, v⟩ := x
    by_cases hq : q = p
    · subst hq
      simp [lookupA]
    · simp only [lookupA, if_neg hq, ih, List.mem_cons]
      constructor
      · rintro ⟨w, hw⟩
        exact ⟨w, Or.inr hw⟩
      · rintro ⟨w, hw | hw⟩
        · exact absurd (congrArg Prod.fst hw).symm hq
        · exact ⟨w, hw⟩

theorem mem_of_lookupA_eq_some {β : Type} {l : List (Path × β)} {p : Path}
    {v : β} (h : lookupA l p = some v) : (p, v) ∈ l := by
  induction l with
  | nil => simp [lookupA] at h
  | cons x t ih =>
    obtain ⟨q, w⟩ := x
    by_cases hq : q = p
    · subst hq
      rw [lookupA, if_pos rfl] at h
      injection h with h
      subst h
      exact List.mem_cons_self _ _
    · rw [lookupA, if_neg hq] at h
      exact List.mem_cons_of_mem _ (ih h)

theorem lookupA_eq_some_of_mem {β : Type} {l : List (Path × β)} {p : Path}
    {v : β} (hnd : (l.map Prod.fst).Nodup) (h : (p, v) ∈ l) :
    lookupA l p = some v := by
  induction l with
  | nil => simp at h
  | cons x t ih =>
    obtain ⟨q, w⟩ := x
    simp only [List.map_cons, List.nodup_cons] at hnd
    by_cases hq : q = p
    · subst hq
      rw [lookupA, if_pos rfl]
      rcases List.mem_cons.mp h with h1 | h1
      · have hv : v = w := congrArg Prod.snd h1
        rw [hv]
      · exact absurd (List.mem_map_of_mem Prod.fst h1) hnd.1
    · rw [lookupA, if_neg hq]
      rcases List.mem_cons.mp h with h1 | h1
      · exact absurd (congrArg Prod.fst h1 : p = q).symm hq
      · exact ih hnd.2 h1

theorem lookupA_filterMap_key {β γ : Type} (l : List (Path × β))
    (Q : Path → Bool) (g : Path → β → γ) (p : Path) :
    lookupA (l.filterMap (fun x =>
        if Q x.1 then some (x.1, g x.1 x.2) else none)) p =
      if Q p then (lookupA l p).map (g p) else none := by
  induction l with
  | nil => cases hq : Q p <;> simp [lookupA, hq]
  | cons x t ih =>
    obtain ⟨q, v⟩ := x
    by_cases hq : q = p
    · subst hq
      cases hQ : Q q <;>
        simp [List.filterMap_cons, hQ, lookupA, ih]
    · cases hQ : Q q <;>
        simp [List.filterMap_cons, hQ, lookupA, hq, ih]

theorem lookupA_map_snd {β γ : Type} (l : List (Path × β)) (f : β → γ)
    (p : Path) :
    lookupA (l.map (fun x => (x.1, f x.2))) p = (lookupA l p).map f := by
  induction l with
  | nil => simp [lookupA]
  | cons x t ih =>
    obtain ⟨q, v⟩ := x
    by_cases hq : q = p <;> simp [lookupA, hq, ih]

theorem mem_filter_map_fst_key {β : Type} (l : List (Path × β))
    (Q : Path → Bool) (p : Path) :
    p ∈ (l.filter (fun x => Q x.1)).map Prod.fst ↔
      (lookupA l p).isSome ∧ Q p = true := by
  rw [lookupA_isSome_iff]
  constructor
  · intro hmem
    obtain ⟨x, hx, hfst⟩ := List.mem_map.mp hmem
    obtain ⟨hxl, hxQ⟩ := List.mem_filter.mp hx
    subst hfst
    exact ⟨⟨x.2, hxl⟩, hxQ⟩
  · rintro ⟨⟨v, hv⟩, hQ⟩
    exact List.mem_map.mpr ⟨(p, v), List.mem_filter.mpr ⟨hv, hQ⟩, rfl⟩

theorem mem_filter_map_fst_nodup {β : Type} {l : List (Path × β)}
    (R : Path × β → Bool) (p : Path) (hnd : (l.map Prod.fst).Nodup) :
    p ∈ (l.filter R).map Prod.fst ↔
      ∃ v, lookupA l p = some v ∧ R (p, v) = true := by
  constructor
  · intro hmem
    obtain ⟨x, hx, hfst⟩ := List.mem_map.mp hmem
    obtain ⟨hxl, hxR⟩ := List.mem_filter.mp hx
    obtain ⟨q, v⟩ := x
    cases hfst
    exact ⟨v, lookupA_eq_some_of_mem hnd hxl, hxR⟩
  · rintro ⟨v, hv, hR⟩
    exact List.mem_map.mpr
      ⟨(p, v), List.mem_filter.mpr ⟨mem_of_lookupA_eq_some hv, hR⟩, rfl⟩

theorem lookupA_treeInsert (t : Tree) (p : Path) (f : File) (q : Path) :
    lookupA (treeInsert t p f) q = if q = p then some f else lookupA t q := by
  induction t with
  | nil =>
    by_cases hq : q = p
    · subst hq
      simp [treeInsert, lookupA]
    · simp [treeInsert, lookupA, hq, Ne.symm hq]
  | cons x t ih =>
    obtain ⟨r, g⟩ := x
    by_cases hr : r = p
    · subst hr
      by_cases hq : q = r
      · subst hq
        simp [treeInsert, lookupA]
      · simp [treeInsert, lookupA, hq, Ne.symm hq]
    · by_cases hrq : r = q
      · subst hrq
        have hq : ¬ r = p := hr
        simp [treeInsert, lookupA, hr, hq]
      · simp [treeInsert, lookupA, hr, hrq, ih]

theorem lookupA_treeRemove (t : Tree) (p q : Path) :
    lookupA (treeRemove t p) q = if q = p then none else lookupA t q := by
  induction t with
  | nil =>
    by_cases hq : q = p <;> simp [treeRemove, lookupA, hq]
  | cons x t ih =>
    obtain ⟨r, g⟩ := x
    by_cases hr : r = p
    · subst hr
      rw [treeRemove, if_pos rfl, ih]
      by_cases hq : q = r
      · simp [hq]
      · have hrq : ¬ r = q := fun h => hq h.symm
        simp [lookupA, hq, hrq]
    · rw [treeRemove, if_neg hr]
      by_cases hrq : r = q
      · subst hrq
        have hq : ¬ r = p := hr
        simp [lookupA, hq]
      · simp [lookupA, hrq, ih]

theorem lookupA_copyInto (src t : Tree) (p q : Path) :
    lookupA (copyInto src t p) q =
      if q = p ∧ (lookupA src p).isSome then lookupA src p
      else lookupA t q := by
  unfold copyInto
  cases hs : lookupA src p with
  | none => simp
  | some f =>
    rw [lookupA_treeInsert]
    by_cases hq : q = p <;> simp [hq]

theorem lookupA_foldl_copyInto (src : Tree) (L : List Path) (t : Tree)
    (q : Path) :
    lookupA (L.foldl (fun acc p => copyInto src acc p) t) q =
      if q ∈ L ∧ (lookupA src q).isSome then lookupA src q
      else lookupA t q := by
  induction L generalizing t with
  | nil => simp
  | cons p L ih =>
    simp only [List.foldl_cons, ih, lookupA_copyInto]
    by_cases hq : q = p
    · subst hq
      by_cases hs : (lookupA src q).isSome
      · simp [hs]
      · simp only [hs, and_false, if_false]
        by_cases hmem : q ∈ L <;> simp [hmem, hs, List.mem_cons]
    · by_cases hmem : q ∈ L <;>
        simp [List.mem_cons, hq, hmem]

/-! ### Scan lemmas -/

theorem lookupA_scan_folder (C : Ctx) (root : Path) (t : Tree) (db : DB)
    (p : Path) :
    lookupA (scan_folder C root t db) p =
      if included C p then (lookupA t p).map (mkEntry C root db p)
      else none := by
  unfold scan_folder
  exact lookupA_filterMap_key t (included C) (mkEntry C root db) p

theorem mem_scan_folder {C : Ctx} {root : Path} {t : Tree} {db : DB}
    {x : Path × Entry} :
    x ∈ scan_folder C root t db ↔
      ∃ f, (x.1, f) ∈ t ∧ included C x.1 = true ∧
        x.2 = mkEntry C root db x.1 f := by
  unfold scan_folder
  rw [List.mem_filterMap]
  constructor
  · rintro ⟨⟨q, f⟩, hmem, hx⟩
    by_cases hq : included C q
    · rw [if_pos hq] at hx
      injection hx with hx
      exact ⟨f, hx ▸ hmem, hx ▸ hq, hx ▸ rfl⟩
    · rw [if_neg hq] at hx
      exact absurd hx (by simp)
  · rintro ⟨f, hmem, hinc, hx⟩
    refine ⟨(x.1, f), hmem, ?_⟩
    rw [if_pos hinc, ← hx]

theorem scan_folder_keys (C : Ctx) (root : Path) (t : Tree) (db : DB) :
    (scan_folder C root t db).map Prod.fst =
      ((t.filter (fun x => included C x.1)).map Prod.fst) := by
  unfold scan_folder
  induction t with
  | nil => rfl
  | cons x t ih =>
    cases hinc : included C x.1 <;>
      simp [List.filterMap_cons, List.filter_cons, hinc, ih]

theorem scan_folder_keys_nodup {C : Ctx} {root : Path} {t : Tree} {db : DB}
    (hnd : (t.map Prod.fst).Nodup) :
    ((scan_folder C root t db).map Prod.fst).Nodup := by
  rw [scan_folder_keys]
  exact List.Nodup.sublist (List.Sublist.map _ (List.filter_sublist t)) hnd

/-! ### Diff-classification membership lemmas -/

theorem mem_new_iff (restore : Bool) (srcF destF : Scan) (p : Path) :
    p ∈ (diffSummary restore srcF destF).new ↔
      (lookupA srcF p).isSome ∧ lookupA destF p = none := by
  have h := mem_filter_map_fst_key srcF (fun q => (lookupA destF q).isNone) p
  simp only [Option.isNone_iff_eq_none] at h
  exact h

theorem mem_deleted_iff (srcF destF : Scan) (p : Path) :
    p ∈ (diffSummary false srcF destF).deleted ↔
      (lookupA destF p).isSome ∧ lookupA srcF p = none := by
  have h := mem_filter_map_fst_key destF (fun q => (lookupA srcF q).isNone) p
  simp only [Option.isNone_iff_eq_none] at h
  exact h

theorem deleted_restore_nil (srcF destF : Scan) :
    (diffSummary true srcF destF).deleted = [] := rfl

theorem mem_modified_iff {srcF : Scan} (restore : Bool) (destF : Scan)
    (p : Path) (hnd : (srcF.map Prod.fst).Nodup) :
    p ∈ (diffSummary restore srcF destF).modified ↔
      ∃ es ed, lookupA srcF p = some es ∧ lookupA destF p = some ed ∧
        es.hash ≠ ed.hash := by
  unfold diffSummary
  rw [mem_filter_map_fst_nodup _ _ hnd]
  constructor
  · rintro ⟨es, hes, hR⟩
    cases hed : lookupA destF p with
    | none => rw [hed] at hR; simp at hR
    | some ed =>
      rw [hed] at hR
      simp only [decide_eq_true_eq] at hR
      exact ⟨es, ed, hes, rfl, hR⟩
  · rintro ⟨es, ed, hes, hed, hne⟩
    refine ⟨es, hes, ?_⟩
    rw [hed]
    simpa using hne

theorem lookupA_isSome_of_mem_filter {β : Type} {l : List (Path × β)}
    {R : Path × β → Bool} {p : Path}
    (h : p ∈ (l.filter R).map Prod.fst) : (lookupA l p).isSome := by
  obtain ⟨x, hx, hfst⟩ := List.mem_map.mp h
  refine (lookupA_isSome_iff _ _).mpr ⟨x.2, ?_⟩
  rw [← hfst]
  simpa using (List.mem_filter.mp hx).1

/-- Exactly one of four alternatives holds. -/
def exactlyOne (a b c d : Prop) : Prop :=
  (a ∧ ¬b ∧ ¬c ∧ ¬d) ∨ (¬a ∧ b ∧ ¬c ∧ ¬d) ∨
    (¬a ∧ ¬b ∧ c ∧ ¬d) ∨ (¬a ∧ ¬b ∧ ¬c ∧ d)

/-- The code's effective Unchanged class: present in both scans with
hashes comparing equal under Python `==` (under which `None == None`
holds, so two unknown sentinels are equal). -/
def unchangedB (srcF destF : Scan) (p : Path) : Bool :=
  match lookupA srcF p, lookupA destF p with
  | some es, some ed => decide (es.hash = ed.hash)
  | _, _ => false

/-- Modelled from the spec: the spec's Unchanged class — present in
both scans, hashes equal, and neither side the IOFailure/unknown
sentinel. -/
def specUnchangedB (srcF destF : Scan) (p : Path) : Bool :=
  match lookupA srcF p, lookupA destF p with
  | some es, some ed => decide (es.hash = ed.hash) && es.hash.isSome
  | _, _ => false

/-! ### Claim C1 -/

/-- C1 counterexample: a path present in both scans whose hashes are
both the IOFailure/unknown sentinel (`none`) is NOT classified
Modified, because Python's `!=` compares `None` equal to `None` —
contradicting the claim that the unknown sentinel compares unequal to
another unknown and forces a re-copy. -/
theorem c1_counterexample :
    (lookupA [((["a"] : Path), Entry.mk ["S", "a"] none)] ["a"]).isSome ∧
    (lookupA [((["a"] : Path), Entry.mk ["D", "a"] none)] ["a"]).isSome ∧
    ["a"] ∉ (diffSummary false
        [((["a"] : Path), Entry.mk ["S", "a"] none)]
        [((["a"] : Path), Entry.mk ["D", "a"] none)]).modified := by
  decide

/-- C1 (amended): for a path present in both scans, if exactly one
side's hash is the IOFailure/unknown sentinel the path is classified
Modified (the sentinel compares unequal to every actual hash), but if
both sides are the sentinel the two compare equal and the path is not
classified Modified. -/
theorem c1_sentinel_modified (restore : Bool) (srcF destF : Scan)
    (p : Path) (es ed : Entry)
    (hnd : (srcF.map Prod.fst).Nodup)
    (hes : lookupA srcF p = some es) (hed : lookupA destF p = some ed) :
    (es.hash = none → ed.hash ≠ none →
        p ∈ (diffSummary restore srcF destF).modified) ∧
    (es.hash ≠ none → ed.hash = none →
        p ∈ (diffSummary restore srcF destF).modified) ∧
    (es.hash = none → ed.hash = none →
        p ∉ (diffSummary restore srcF destF).modified) := by
  have hiff := mem_modified_iff restore destF p hnd
  refine ⟨?_, ?_, ?_⟩
  · intro h1 h2
    exact hiff.mpr ⟨es, ed, hes, hed, by rw [h1]; exact fun he => h2 he.symm⟩
  · intro h1 h2
    exact hiff.mpr ⟨es, ed, hes, hed, by rw [h2]; exact h1⟩
  · intro h1 h2 hmem
    obtain ⟨es', ed', hes', hed', hne⟩ := hiff.mp hmem
    rw [hes] at hes'
    rw [hed] at hed'
    injection hes' with hes'
    injection hed' with hed'
    exact hne (by rw [← hes', ← hed', h1, h2])

/-- C1 witness: with a source-side sentinel against an actual
destination hash, the path is classified Modified. -/
theorem c1_sentinel_modified_witness :
    ["a"] ∈ (diffSummary false
        [((["a"] : Path), Entry.mk ["S", "a"] none)]
        [((["a"] : Path), Entry.mk ["D", "a"] (some "h"))]).modified :=
  (c1_sentinel_modified false
      [((["a"] : Path), Entry.mk ["S", "a"] none)]
      [((["a"] : Path), Entry.mk ["D", "a"] (some "h"))]
      ["a"] (Entry.mk ["S", "a"] none) (Entry.mk ["D", "a"] (some "h"))
      (by decide) (by decide) (by decide)).1 rfl (by decide)

/-! ### Claim C2 -/

/-- C2 counterexample: with both sides' hashes the unknown sentinel,
the path is present in both scans yet belongs to none of
{New, Modified, Deleted} and is not Unchanged in the spec's sense
(matching non-unknown hashes), so the claimed exhaustive partition
fails as stated. -/
theorem c2_counterexample :
    (lookupA [((["a"] : Path), Entry.mk ["S", "a"] none)] ["a"]).isSome ∧
    ["a"] ∉ (diffSummary false
        [((["a"] : Path), Entry.mk ["S", "a"] none)]
        [((["a"] : Path), Entry.mk ["D", "a"] none)]).new ∧
    ["a"] ∉ (diffSummary false
        [((["a"] : Path), Entry.mk ["S", "a"] none)]
        [((["a"] : Path), Entry.mk ["D", "a"] none)]).modified ∧
    ["a"] ∉ (diffSummary false
        [((["a"] : Path), Entry.mk ["S", "a"] none)]
        [((["a"] : Path), Entry.mk ["D", "a"] none)]).deleted ∧
    specUnchangedB
        [((["a"] : Path), Entry.mk ["S", "a"] none)]
        [((["a"] : Path), Entry.mk ["D", "a"] none)] ["a"] = false := by
  decide

/-- C2 (amended): with Unchanged read as the code's complement class
(present in both scans with hashes comparing equal, where two unknown
sentinels compare equal): in Backup direction every path present in
either scan falls in exactly one of {New, Modified, Deleted,
Unchanged}; in Restore direction this holds for every path present in
the logical source scan, while a path present only in the destination
scan falls in no class at all. -/
theorem c2_classification (restore : Bool) (srcF destF : Scan) (p : Path)
    (hnd : (srcF.map Prod.fst).Nodup)
    (hpresent : (lookupA srcF p).isSome ∨ (lookupA destF p).isSome) :
    (restore = false →
      exactlyOne (p ∈ (diffSummary restore srcF destF).new)
        (p ∈ (diffSummary restore srcF destF).modified)
        (p ∈ (diffSummary restore srcF destF).deleted)
        (unchangedB srcF destF p = true)) ∧
    ((lookupA srcF p).isSome →
      exactlyOne (p ∈ (diffSummary restore srcF destF).new)
        (p ∈ (diffSummary restore srcF destF).modified)
        (p ∈ (diffSummary restore srcF destF).deleted)
        (unchangedB srcF destF p = true)) ∧
    (restore = true → lookupA srcF p = none →
      p ∉ (diffSummary restore srcF destF).new ∧
      p ∉ (diffSummary restore srcF destF).modified ∧
      p ∉ (diffSummary restore srcF destF).deleted ∧
      unchangedB srcF destF p = false) := by
  have hnew := mem_new_iff restore srcF destF p
  have hmod := mem_modified_iff restore destF p hnd
  have hdel_mem : p ∈ (diffSummary restore srcF destF).deleted →
      (lookupA destF p).isSome ∧ lookupA srcF p = none := by
    intro hmem
    cases restore with
    | false => exact (mem_deleted_iff srcF destF p).mp hmem
    | true => simp [deleted_restore_nil] at hmem
  cases hsrc : lookupA srcF p with
  | some es =>
    have hone : exactlyOne (p ∈ (diffSummary restore srcF destF).new)
        (p ∈ (diffSummary restore srcF destF).modified)
        (p ∈ (diffSummary restore srcF destF).deleted)
        (unchangedB srcF destF p = true) := by
      cases hdst : lookupA destF p with
      | some ed =>
        by_cases hh : es.hash = ed.hash
        · refine Or.inr (Or.inr (Or.inr ⟨?_, ?_, ?_, ?_⟩))
          · rw [hnew]
            simp [hdst]
          · intro hmem
            obtain ⟨es', ed', hes', hed', hne⟩ := hmod.mp hmem
            rw [hsrc] at hes'
            rw [hdst] at hed'
            injection hes' with hes'
            injection hed' with hed'
            exact hne (hes' ▸ hed' ▸ hh)
          · intro hmem
            rw [(hdel_mem hmem).2] at hsrc
            exact absurd hsrc (by simp)
          · unfold unchangedB
            rw [hsrc, hdst]
            simpa using hh
        · refine Or.inr (Or.inl ⟨?_, ?_, ?_, ?_⟩)
          · rw [hnew]
            simp [hdst]
          · exact hmod.mpr ⟨es, ed, hsrc, hdst, hh⟩
          · intro hmem
            rw [(hdel_mem hmem).2] at hsrc
            exact absurd hsrc (by simp)
          · unfold unchangedB
            rw [hsrc, hdst]
            simpa using hh
      | none =>
        refine Or.inl ⟨?_, ?_, ?_, ?_⟩
        · rw [hnew]
          simp [hsrc, hdst]
        · intro hmem
          obtain ⟨es', ed', hes', hed', hne⟩ := hmod.mp hmem
          rw [hdst] at hed'
          exact absurd hed' (by simp)
        · intro hmem
          rw [(hdel_mem hmem).2] at hsrc
          exact absurd hsrc (by simp)
        · unfold unchangedB
          rw [hsrc, hdst]
          exact fun hx => Bool.noConfusion hx
    refine ⟨fun _ => hone, fun _ => hone, fun _ habs => ?_⟩
    exact absurd habs (by simp)
  | none =>
    cases hdst : lookupA destF p with
    | none =>
      rw [hsrc, hdst] at hpresent
      simp at hpresent
    | some ed =>
      refine ⟨?_, ?_, ?_⟩
      · intro hres
        subst hres
        refine Or.inr (Or.inr (Or.inl ⟨?_, ?_, ?_, ?_⟩))
        · rw [hnew]
          simp [hsrc]
        · intro hmem
          obtain ⟨es', _, hes', _, _⟩ := hmod.mp hmem
          rw [hsrc] at hes'
          exact absurd hes' (by simp)
        · exact (mem_deleted_iff srcF destF p).mpr ⟨by simp [hdst], hsrc⟩
        · unfold unchangedB
          rw [hsrc, hdst]
          exact fun hx => Bool.noConfusion hx
      · intro habs
        simp at habs
      · intro hres _
        subst hres
        refine ⟨?_, ?_, ?_, ?_⟩
        · rw [hnew]
          simp [hsrc]
        · intro hmem
          obtain ⟨es', _, hes', _, _⟩ := hmod.mp hmem
          rw [hsrc] at hes'
          exact absurd hes' (by simp)
        · simp [deleted_restore_nil]
        · unfold unchangedB
          rw [hsrc, hdst]

/-- C2 witness: a path present in both scans with equal actual hashes
falls in the Unchanged class and no other. -/
theorem c2_classification_witness :
    exactlyOne
      (["a"] ∈ (diffSummary false
          [((["a"] : Path), Entry.mk ["S", "a"] (some "x"))]
          [((["a"] : Path), Entry.mk ["D", "a"] (some "x"))]).new)
      (["a"] ∈ (diffSummary false
          [((["a"] : Path), Entry.mk ["S", "a"] (some "x"))]
          [((["a"] : Path), Entry.mk ["D", "a"] (some "x"))]).modified)
      (["a"] ∈ (diffSummary false
          [((["a"] : Path), Entry.mk ["S", "a"] (some "x"))]
          [((["a"] : Path), Entry.mk ["D", "a"] (some "x"))]).deleted)
      (unchangedB
          [((["a"] : Path), Entry.mk ["S", "a"] (some "x"))]
          [((["a"] : Path), Entry.mk ["D", "a"] (some "x"))] ["a"] = true) :=
  (c2_classification false
      [((["a"] : Path), Entry.mk ["S", "a"] (some "x"))]
      [((["a"] : Path), Entry.mk ["D", "a"] (some "x"))]
      ["a"] (by decide) (Or.inl (by decide))).1 rfl

/-! ### Reduction lemmas for `sync` -/

theorem sync_scan_only_eq (C : Ctx) (restore : Bool) (st : SyncState)
    (inputs : List String) :
    sync C restore true st inputs =
      some { state := st, copies := [], deletes := [], remaining := inputs,
             cancelled := false } := rfl

theorem sync_nil_input (C : Ctx) (restore : Bool) (st : SyncState) :
    sync C restore false st [] = none := rfl

theorem sync_cancelled_eq (C : Ctx) (restore : Bool) (st : SyncState)
    (choice : String) (rest : List String) (hn : strLower choice ≠ "y") :
    sync C restore false st (choice :: rest) =
      some { state := st, copies := [], deletes := [], remaining := rest,
             cancelled := true } := by
  unfold sync
  simp [hn]

theorem sync_confirmed_restore (C : Ctx) (st : SyncState) (choice : String)
    (rest : List String) (hy : strLower choice = "y") :
    sync C true false st (choice :: rest) =
      some { state := { srcRoot := st.srcRoot, destRoot := st.destRoot,
                        srcTree := applyCopies st.destTree st.srcTree
                          (copyRels (scan_changes C true st).1
                            (scan_changes C true st).2.1),
                        destTree := st.destTree,
                        srcDb := updatedDb (scan_changes C true st).2.1,
                        destDb := updatedDb (scan_changes C true st).2.1 },
             copies := (copyRels (scan_changes C true st).1
                 (scan_changes C true st).2.1).map
               (fun p => (st.destRoot ++ p, st.srcRoot ++ p)),
             deletes := [], remaining := rest, cancelled := false } := by
  unfold sync
  simp [hy]

theorem sync_confirmed_backup (C : Ctx) (st : SyncState) (choice : String)
    (rest : List String) (hy : strLower choice = "y") :
    sync C false false st (choice :: rest) =
      match runDeletes (scan_changes C false st).2.2
          (applyCopies st.srcTree st.destTree
            (copyRels (scan_changes C false st).1
              (scan_changes C false st).2.1))
          (scan_changes C false st).1.deleted rest with
      | none => none
      | some (t3, dels, rem) =>
        some { state := { srcRoot := st.srcRoot, destRoot := st.destRoot,
                          srcTree := st.srcTree, destTree := t3,
                          srcDb := updatedDb (scan_changes C false st).2.1,
                          destDb := updatedDb (scan_changes C false st).2.1 },
               copies := (copyRels (scan_changes C false st).1
                   (scan_changes C false st).2.1).map
                 (fun p => (st.srcRoot ++ p, st.destRoot ++ p)),
               deletes := dels, remaining := rem, cancelled := false } := by
  unfold sync
  simp [hy]

/-! ### Claim C9 -/

/-- C9: with `scan_only` set, `sync` performs no filesystem mutation at
all — no copy, no deletion, both trees and both cache databases keep
their pre-run contents — consumes no console input, and returns right
after the summary. -/
theorem c9_scan_only_no_mutation (C : Ctx) (restore : Bool)
    (st : SyncState) (inputs : List String) :
    sync C restore true st inputs =
      some { state := st, copies := [], deletes := [], remaining := inputs,
             cancelled := false } := rfl

/-! ### Claim C10 -/

/-- C10: when `scan_only` is false, `sync` asks one global
confirmation before any mutation; any answer whose lowercased form is
not exactly `y` cancels the run immediately — no copy, no deletion, no
cache write, and exactly that one input consumed — whereas the
per-file deletion prompt re-asks on unrecognized input. -/
theorem c10_global_confirmation (C : Ctx) (restore : Bool)
    (st : SyncState) (a : String) (rest : List String) (b : String)
    (tl : List String) (ha : strLower a ≠ "y") (hb1 : strLower b ≠ "y")
    (hb2 : strLower b ≠ "n") :
    sync C restore false st (a :: rest) =
      some { state := st, copies := [], deletes := [], remaining := rest,
             cancelled := true } ∧
    promptDeleteLoop (b :: tl) = promptDeleteLoop tl := by
  refine ⟨sync_cancelled_eq C restore st a rest ha, ?_⟩
  rw [promptDeleteLoop]
  simp [hb1, hb2]

/-- C10 witness. -/
theorem c10_global_confirmation_witness :
    sync { h := fun s => s, ign := [] } false false
        { srcRoot := ["S"], destRoot := ["D"],
          srcTree := [(["a"], { content := "hi", readable := true })],
          destTree := [], srcDb := [], destDb := [] } ["q"] =
      some { state := { srcRoot := ["S"], destRoot := ["D"],
                        srcTree := [(["a"], { content := "hi", readable := true })],
                        destTree := [], srcDb := [], destDb := [] },
             copies := [], deletes := [], remaining := [],
             cancelled := true } ∧
    promptDeleteLoop ["maybe", "y"] = promptDeleteLoop ["y"] :=
  c10_global_confirmation { h := fun s => s, ign := [] } false
    { srcRoot := ["S"], destRoot := ["D"],
      srcTree := [(["a"], { content := "hi", readable := true })],
      destTree := [], srcDb := [], destDb := [] } "q" [] "maybe" ["y"]
    (by decide) (by decide) (by decide)

/-! ### Claim C3 -/

/-- C3: in Restore direction the diff summary's Deleted list is empty
for every input state, and a Restore run deletes nothing: the recorded
deletions are empty, the physical destination tree is untouched, and
every file present in the logical destination (the physical `--src`
tree) before the run is still present after it. -/
theorem c3_restore_never_deletes (C : Ctx) (scanOnly : Bool)
    (st : SyncState) (inputs : List String) (res : SyncResult) (p : Path)
    (hrun : sync C true scanOnly st inputs = some res)
    (hp : (lookupA st.srcTree p).isSome) :
    (scan_changes C true st).1.deleted = [] ∧
    res.deletes = [] ∧
    res.state.destTree = st.destTree ∧
    (lookupA res.state.srcTree p).isSome := by
  refine ⟨rfl, ?_⟩
  cases scanOnly with
  | true =>
    rw [sync_scan_only_eq] at hrun
    injection hrun with hrun
    subst hrun
    exact ⟨rfl, rfl, hp⟩
  | false =>
    cases inputs with
    | nil =>
      rw [sync_nil_input] at hrun
      exact absurd hrun (by simp)
    | cons choice rest =>
      by_cases hc : strLower choice = "y"
      · rw [sync_confirmed_restore C st choice rest hc] at hrun
        injection hrun with hrun
        subst hrun
        refine ⟨rfl, rfl, ?_⟩
        show (lookupA (applyCopies st.destTree st.srcTree _) p).isSome
        unfold applyCopies
        rw [lookupA_foldl_copyInto]
        split
        next h => exact h.2
        next => exact hp
      · rw [sync_cancelled_eq C true st choice rest hc] at hrun
        injection hrun with hrun
        subst hrun
        exact ⟨rfl, rfl, hp⟩

/-- Witness fixture: a tiny configuration and state used to
instantiate the claim theorems at concrete inputs. -/
def CW : Ctx := { h := fun s => String.append "H" s, ign := ["ig"] }

/-- Witness fixture: one-file source, one-(other-)file destination. -/
def stW : SyncState :=
  { srcRoot := ["S"], destRoot := ["D"],
    srcTree := [(["a"], { content := "hi", readable := true })],
    destTree := [(["b"], { content := "zz", readable := true })],
    srcDb := [], destDb := [] }

/-- Witness fixture: the result of a scan-only run from `stW`. -/
def resW : SyncResult :=
  { state := stW, copies := [], deletes := [], remaining := [],
    cancelled := false }

/-- C3 witness. -/
theorem c3_restore_never_deletes_witness :
    (scan_changes CW true stW).1.deleted = [] ∧
    resW.deletes = [] ∧
    resW.state.destTree = stW.destTree ∧
    (lookupA resW.state.srcTree ["a"]).isSome :=
  c3_restore_never_deletes CW true stW [] resW ["a"] rfl (by decide)

/-! ### Claim C4 -/

/-- C4: after a confirmed, non-scan-only run (either direction) the
two persisted cache databases are equal, and each maps exactly the
relative paths of the logical source scan — nothing else, including
entries for unchanged paths — to that scan's hash for the path. -/
theorem c4_caches_converge (C : Ctx) (restore : Bool) (st : SyncState)
    (choice : String) (rest : List String) (res : SyncResult) (p : Path)
    (hy : strLower choice = "y")
    (hrun : sync C restore false st (choice :: rest) = some res) :
    res.state.srcDb = res.state.destDb ∧
    lookupA res.state.srcDb p =
      (lookupA (scan_changes C restore st).2.1 p).map Entry.hash := by
  cases restore with
  | true =>
    rw [sync_confirmed_restore C st choice rest hy] at hrun
    injection hrun with hrun
    subst hrun
    exact ⟨rfl, lookupA_map_snd _ Entry.hash p⟩
  | false =>
    rw [sync_confirmed_backup C st choice rest hy] at hrun
    split at hrun
    · exact absurd hrun (by simp)
    · injection hrun with hrun
      subst hrun
      exact ⟨rfl, lookupA_map_snd _ Entry.hash p⟩

/-- Witness fixture: the result of the confirmed backup run from
`stW2` (source one file, destination empty). -/
def stW2 : SyncState :=
  { srcRoot := ["S"], destRoot := ["D"],
    srcTree := [(["a"], { content := "hi", readable := true })],
    destTree := [], srcDb := [], destDb := [] }

/-- Witness fixture: the outcome of `sync CW false false stW2 ["y"]`. -/
def resW2 : SyncResult :=
  { state := { srcRoot := ["S"], destRoot := ["D"],
               srcTree := [(["a"], { content := "hi", readable := true })],
               destTree := [(["a"], { content := "hi", readable := true })],
               srcDb := [((["a"] : Path), some "Hhi")],
               destDb := [((["a"] : Path), some "Hhi")] },
    copies := [(["S", "a"], ["D", "a"])], deletes := [], remaining := [],
    cancelled := false }

/-- C4 witness. -/
theorem c4_caches_converge_witness :
    resW2.state.srcDb = resW2.state.destDb ∧
    lookupA resW2.state.srcDb ["a"] =
      (lookupA (scan_changes CW false stW2).2.1 ["a"]).map Entry.hash :=
  c4_caches_converge CW false stW2 "y" [] resW2 ["a"] (by decide) (by decide)

/-! ### Claim C7 -/

/-- C7: a file inside a subdirectory whose basename is in the
configured ignore-set (at any depth) appears in neither scan result,
is never classified New, Modified, or Deleted, and is never copied:
the walk prunes the whole subtree before descending. -/
theorem c7_ignored_dir_pruned (C : Ctx) (restore scanOnly : Bool)
    (st : SyncState) (inputs : List String) (res : SyncResult) (p : Path)
    (d : String) (hd : d ∈ C.ign) (hdp : d ∈ p.dropLast)
    (hrun : sync C restore scanOnly st inputs = some res) :
    lookupA (scan_changes C restore st).2.1 p = none ∧
    lookupA (scan_changes C restore st).2.2 p = none ∧
    p ∉ (scan_changes C restore st).1.new ∧
    p ∉ (scan_changes C restore st).1.modified ∧
    p ∉ (scan_changes C restore st).1.deleted ∧
    ((if restore then st.destRoot else st.srcRoot) ++ p,
      (if restore then st.srcRoot else st.destRoot) ++ p) ∉ res.copies := by
  have hinc : included C p = false := by
    unfold included
    have hall : p.dropLast.all (fun d2 => decide (d2 ∉ C.ign)) = false := by
      rw [List.all_eq_false]
      exact ⟨d, hdp, by simpa using hd⟩
    rw [hall, Bool.false_and]
  have hsrcF : lookupA (scan_changes C restore st).2.1 p = none := by
    cases restore <;>
      simp [scan_changes, lookupA_scan_folder, hinc]
  have hdestF : lookupA (scan_changes C restore st).2.2 p = none := by
    cases restore <;>
      simp [scan_changes, lookupA_scan_folder, hinc]
  have hnotnew : p ∉ (scan_changes C restore st).1.new := by
    intro hmem
    have := lookupA_isSome_of_mem_filter
      (l := (scan_changes C restore st).2.1) hmem
    rw [hsrcF] at this
    exact absurd this (by simp)
  have hnotmod : p ∉ (scan_changes C restore st).1.modified := by
    intro hmem
    have := lookupA_isSome_of_mem_filter
      (l := (scan_changes C restore st).2.1) hmem
    rw [hsrcF] at this
    exact absurd this (by simp)
  have hnotdel : p ∉ (scan_changes C restore st).1.deleted := by
    intro hmem
    cases restore with
    | true => simp [scan_changes, deleted_restore_nil] at hmem
    | false =>
      have := lookupA_isSome_of_mem_filter
        (l := (scan_changes C false st).2.2) hmem
      rw [hdestF] at this
      exact absurd this (by simp)
  refine ⟨hsrcF, hdestF, hnotnew, hnotmod, hnotdel, ?_⟩
  have hnotrel : p ∉ copyRels (scan_changes C restore st).1
      (scan_changes C restore st).2.1 := by
    intro hmem
    have := lookupA_isSome_of_mem_filter
      (l := (scan_changes C restore st).2.1) hmem
    rw [hsrcF] at this
    exact absurd this (by simp)
  intro hmem
  cases scanOnly with
  | true =>
    rw [sync_scan_only_eq] at hrun
    injection hrun with hrun
    subst hrun
    simp at hmem
  | false =>
    cases inputs with
    | nil =>
      rw [sync_nil_input] at hrun
      exact absurd hrun (by simp)
    | cons choice rest =>
      by_cases hc : strLower choice = "y"
      · cases restore with
        | true =>
          rw [sync_confirmed_restore C st choice rest hc] at hrun
          injection hrun with hrun
          subst hrun
          simp only [] at hmem
          obtain ⟨q, hq, hpair⟩ := List.mem_map.mp hmem
          have h1 : st.destRoot ++ q = st.destRoot ++ p :=
            congrArg Prod.fst hpair
          have hqp : q = p := List.append_cancel_left h1
          exact hnotrel (hqp ▸ hq)
        | false =>
          rw [sync_confirmed_backup C st choice rest hc] at hrun
          split at hrun
          · exact absurd hrun (by simp)
          · injection hrun with hrun
            subst hrun
            simp only [] at hmem
            obtain ⟨q, hq, hpair⟩ := List.mem_map.mp hmem
            have h1 : st.srcRoot ++ q = st.srcRoot ++ p :=
              congrArg Prod.fst hpair
            have hqp : q = p := List.append_cancel_left h1
            exact hnotrel (hqp ▸ hq)
      · rw [sync_cancelled_eq C restore st choice rest hc] at hrun
        injection hrun with hrun
        subst hrun
        simp at hmem

/-- Witness fixture: a destination tree holding a file inside the
ignored directory `ig`. -/
def stW7 : SyncState :=
  { srcRoot := ["S"], destRoot := ["D"],
    srcTree := [(["a"], { content := "hi", readable := true })],
    destTree := [(["ig", "c"], { content := "qq", readable := true })],
    srcDb := [], destDb := [] }

/-- Witness fixture: the result of a scan-only run from `stW7`. -/
def resW7 : SyncResult :=
  { state := stW7, copies := [], deletes := [], remaining := [],
    cancelled := false }

/-- C7 witness: a file under the ignored directory `ig` in the
destination tree is invisible to a backup run. -/
theorem c7_ignored_dir_pruned_witness :
    lookupA (scan_changes CW false stW7).2.1 ["ig", "c"] = none ∧
    lookupA (scan_changes CW false stW7).2.2 ["ig", "c"] = none ∧
    ["ig", "c"] ∉ (scan_changes CW false stW7).1.new ∧
    ["ig", "c"] ∉ (scan_changes CW false stW7).1.modified ∧
    ["ig", "c"] ∉ (scan_changes CW false stW7).1.deleted ∧
    ((if false then stW7.destRoot else stW7.srcRoot) ++ ["ig", "c"],
      (if false then stW7.srcRoot else stW7.destRoot) ++ ["ig", "c"]) ∉
      resW7.copies :=
  c7_ignored_dir_pruned CW false true stW7 [] resW7 ["ig", "c"] "ig"
    (by decide) (by decide) rfl

/-! ### Claim C8 -/

/-- C8: during a scan, a file whose relative path has a non-empty
cached hash gets that cached hash verbatim — independently of the
file's current content, which is neither read nor hashed — while every
other file's hash is freshly computed by `get_file_hash`, whose result
may be the failure sentinel `none`. -/
theorem c8_cache_hit_trusted (C : Ctx) (root : Path) (t : Tree) (db : DB)
    (p : Path) (f g : File) (v : String)
    (hf : lookupA t p = some f) (hinc : included C p = true) :
    (dbGet db p = some v → v ≠ "" →
      lookupA (scan_folder C root t db) p =
        some { full_path := root ++ p, hash := some v } ∧
      scanHash C db p f = scanHash C db p g) ∧
    (truthy (dbGet db p) = false →
      lookupA (scan_folder C root t db) p =
        some { full_path := root ++ p, hash := get_file_hash C f }) := by
  constructor
  · intro h1 h2
    constructor
    · rw [lookupA_scan_folder, if_pos hinc, hf]
      unfold mkEntry scanHash
      rw [h1]
      simp [truthy, h2]
    · unfold scanHash
      rw [h1]
      simp [truthy, h2]
  · intro h1
    rw [lookupA_scan_folder, if_pos hinc, hf]
    unfold mkEntry scanHash
    simp [h1]

/-- C8 witness: a stale cached hash is reused verbatim even though the
file's content hashes differently, and an uncached unreadable file
gets the failure sentinel. -/
theorem c8_cache_hit_trusted_witness :
    lookupA (scan_folder CW ["S"]
        [(["a"], { content := "hi", readable := true })]
        [((["a"] : Path), some "stale")]) ["a"] =
      some { full_path := ["S", "a"], hash := some "stale" } :=
  ((c8_cache_hit_trusted CW ["S"]
      [(["a"], { content := "hi", readable := true })]
      [((["a"] : Path), some "stale")] ["a"]
      { content := "hi", readable := true }
      { content := "changed", readable := true } "stale"
      rfl (by decide)).1 rfl (by decide)).1

/-! ### The deletion pass under all-affirmative input -/

theorem promptDeleteLoop_y (as : List String) :
    promptDeleteLoop ("y" :: as) = some (true, as) := by
  rw [promptDeleteLoop, if_pos (by decide)]

theorem runDeletes_lookup_all_y (destF : Scan) (del : List Path) :
    ∀ (t : Tree) (inputs : List String)
      (out : Tree × List Path × List String),
      (∀ s ∈ inputs, s = "y") →
      runDeletes destF t del inputs = some out →
      ∀ q, lookupA out.1 q =
        if q ∈ del ∧ (lookupA destF q).isSome then none
        else lookupA t q := by
  induction del with
  | nil =>
    intro t inputs out hy hrun q
    rw [runDeletes] at hrun
    injection hrun with hrun
    subst hrun
    simp
  | cons p ps ih =>
    intro t inputs out hy hrun q
    rw [runDeletes] at hrun
    cases hdf : lookupA destF p with
    | none =>
      rw [hdf] at hrun
      rw [ih t inputs out hy hrun q]
      by_cases hqp : q = p
      · subst hqp
        have : ¬ (q ∈ ps ∧ (lookupA destF q).isSome) := by
          rw [hdf]
          simp
        rw [if_neg this, if_neg]
        rw [hdf]
        simp
      · simp [List.mem_cons, hqp]
    | some e =>
      rw [hdf] at hrun
      cases inputs with
      | nil => simp [promptDeleteLoop] at hrun
      | cons a as =>
        have ha : a = "y" := hy a (List.mem_cons_self _ _)
        subst ha
        rw [promptDeleteLoop_y] at hrun
        dsimp only at hrun
        have hyas : ∀ s ∈ as, s = "y" :=
          fun s hs => hy s (List.mem_cons_of_mem _ hs)
        cases hrec : runDeletes destF (treeRemove t p) ps as with
        | none =>
          rw [hrec] at hrun
          exact absurd hrun (by simp)
        | some out2 =>
          obtain ⟨t2, ds2, r2⟩ := out2
          rw [hrec] at hrun
          injection hrun with hrun
          subst hrun
          have hih := ih (treeRemove t p) as (t2, ds2, r2) hyas hrec q
          show lookupA t2 q = _
          rw [hih, lookupA_treeRemove]
          by_cases hqp : q = p
          · subst hqp
            have hq2 : (lookupA destF q).isSome := by
              rw [hdf]
              rfl
            simp [hq2]
          · simp [List.mem_cons, hqp]

/-! ### Run-1 artifacts of a confirmed backup sync (abbreviations) -/

/-- The logical source scan of a backup run. -/
def sF1 (C : Ctx) (st : SyncState) : Scan :=
  scan_folder C st.srcRoot st.srcTree st.srcDb

/-- The logical destination scan of a backup run. -/
def dF1 (C : Ctx) (st : SyncState) : Scan :=
  scan_folder C st.destRoot st.destTree st.destDb

/-- The diff summary of a backup run. -/
def sum1 (C : Ctx) (st : SyncState) : Summary :=
  diffSummary false (sF1 C st) (dF1 C st)

/-- The replacement hash database persisted by a confirmed backup
run. -/
def db2 (C : Ctx) (st : SyncState) : DB := updatedDb (sF1 C st)

/-- The destination tree of a backup run after the copy pass, before
the deletion pass. -/
def ld2 (C : Ctx) (st : SyncState) : Tree :=
  applyCopies st.srcTree st.destTree (copyRels (sum1 C st) (sF1 C st))

theorem scan_isSome_iff (C : Ctx) (root : Path) (t : Tree) (db : DB)
    (q : Path) :
    (lookupA (scan_folder C root t db) q).isSome ↔
      included C q = true ∧ (lookupA t q).isSome := by
  rw [lookupA_scan_folder]
  by_cases hq : included C q <;> simp [hq]

theorem mem_copyRels_iff (S : Summary) (F : Scan) (q : Path) :
    q ∈ copyRels S F ↔
      (lookupA F q).isSome ∧ (q ∈ S.new ∨ q ∈ S.modified) := by
  refine (mem_filter_map_fst_key F
    (fun r => decide (r ∈ S.new) || decide (r ∈ S.modified)) q).trans ?_
  rw [Bool.or_eq_true, decide_eq_true_eq, decide_eq_true_eq]

theorem lookupA_ld2 (C : Ctx) (st : SyncState) (q : Path) :
    lookupA (ld2 C st) q =
      if q ∈ copyRels (sum1 C st) (sF1 C st) ∧
          (lookupA st.srcTree q).isSome
      then lookupA st.srcTree q else lookupA st.destTree q :=
  lookupA_foldl_copyInto st.srcTree _ st.destTree q

/-- After a confirmed backup run with all deletions approved, every
path of the logical source scan is still (or newly) present in the
final destination tree. -/
theorem src_present_after_backup (C : Ctx) (st : SyncState) (t3 : Tree)
    (ht3 : ∀ q, lookupA t3 q =
      if q ∈ (sum1 C st).deleted ∧ (lookupA (dF1 C st) q).isSome
      then none else lookupA (ld2 C st) q)
    (q : Path) (hq : (lookupA (sF1 C st) q).isSome) :
    (lookupA t3 q).isSome := by
  have hnotdel : ¬ (q ∈ (sum1 C st).deleted ∧
      (lookupA (dF1 C st) q).isSome) := by
    rintro ⟨hmem, -⟩
    have h2 := ((mem_deleted_iff (sF1 C st) (dF1 C st) q).mp hmem).2
    rw [h2] at hq
    simp at hq
  rw [ht3 q, if_neg hnotdel, lookupA_ld2]
  by_cases hcond : q ∈ copyRels (sum1 C st) (sF1 C st) ∧
      (lookupA st.srcTree q).isSome
  · rw [if_pos hcond]
    exact hcond.2
  · rw [if_neg hcond]
    have hsrc := (scan_isSome_iff C st.srcRoot st.srcTree st.srcDb q).mp hq
    have hnrels : q ∉ copyRels (sum1 C st) (sF1 C st) :=
      fun hr => hcond ⟨hr, hsrc.2⟩
    have hnnew : q ∉ (sum1 C st).new := fun hn =>
      hnrels ((mem_copyRels_iff _ _ q).mpr ⟨hq, Or.inl hn⟩)
    have hdsome : (lookupA (dF1 C st) q).isSome := by
      cases hdf : lookupA (dF1 C st) q with
      | none =>
        exact absurd ((mem_new_iff false (sF1 C st) (dF1 C st) q).mpr
          ⟨hq, hdf⟩) hnnew
      | some d => rfl
    exact ((scan_isSome_iff C st.destRoot st.destTree st.destDb q).mp
      hdsome).2

/-- After a confirmed backup run with all deletions approved, every
path still present in the final destination tree (and visible to the
walk) is present in the source tree. -/
theorem dest_present_after_backup (C : Ctx) (st : SyncState) (t3 : Tree)
    (ht3 : ∀ q, lookupA t3 q =
      if q ∈ (sum1 C st).deleted ∧ (lookupA (dF1 C st) q).isSome
      then none else lookupA (ld2 C st) q)
    (q : Path) (hinc : included C q = true)
    (hq : (lookupA t3 q).isSome) :
    (lookupA st.srcTree q).isSome := by
  rw [ht3 q] at hq
  by_cases hdel : q ∈ (sum1 C st).deleted ∧ (lookupA (dF1 C st) q).isSome
  · rw [if_pos hdel] at hq
    simp at hq
  · rw [if_neg hdel, lookupA_ld2] at hq
    by_cases hcond : q ∈ copyRels (sum1 C st) (sF1 C st) ∧
        (lookupA st.srcTree q).isSome
    · exact hcond.2
    · rw [if_neg hcond] at hq
      by_cases hsf : (lookupA (sF1 C st) q).isSome
      · exact ((scan_isSome_iff C st.srcRoot st.srcTree st.srcDb q).mp
          hsf).2
      · exfalso
        have hsfn : lookupA (sF1 C st) q = none := by
          cases h : lookupA (sF1 C st) q with
          | none => rfl
          | some e =>
            rw [h] at hsf
            simp at hsf
        have hdsome : (lookupA (dF1 C st) q).isSome :=
          (scan_isSome_iff C st.destRoot st.destTree st.destDb q).mpr
            ⟨hinc, hq⟩
        exact hdel ⟨(mem_deleted_iff (sF1 C st) (dF1 C st) q).mpr
          ⟨hdsome, hsfn⟩, hdsome⟩

/-- The second scan of both sides agrees on hashes: the replacement
cache either serves both sides the same recorded value, or both sides
recompute over bytes the copy pass made identical. -/
theorem hash_agree_after_backup (C : Ctx) (st : SyncState) (t3 : Tree)
    (hndsF : ((sF1 C st).map Prod.fst).Nodup)
    (ht3 : ∀ q, lookupA t3 q =
      if q ∈ (sum1 C st).deleted ∧ (lookupA (dF1 C st) q).isSome
      then none else lookupA (ld2 C st) q)
    (q : Path) (f g : File) (hinc : included C q = true)
    (hf : lookupA st.srcTree q = some f) (hg : lookupA t3 q = some g) :
    scanHash C (db2 C st) q f = scanHash C (db2 C st) q g := by
  have hsfq : lookupA (sF1 C st) q =
      some (mkEntry C st.srcRoot st.srcDb q f) := by
    show lookupA (scan_folder C st.srcRoot st.srcTree st.srcDb) q = _
    rw [lookupA_scan_folder, if_pos hinc, hf]
    rfl
  have hdbq : dbGet (db2 C st) q = scanHash C st.srcDb q f := by
    show dbGet (updatedDb (sF1 C st)) q = _
    unfold dbGet updatedDb
    rw [lookupA_map_snd (sF1 C st) Entry.hash q, hsfq]
    rfl
  by_cases htr : truthy (dbGet (db2 C st) q) = true
  · show (if truthy (dbGet (db2 C st) q) = true
        then dbGet (db2 C st) q else get_file_hash C f) =
      (if truthy (dbGet (db2 C st) q) = true
        then dbGet (db2 C st) q else get_file_hash C g)
    rw [if_pos htr, if_pos htr]
  · show (if truthy (dbGet (db2 C st) q) = true
        then dbGet (db2 C st) q else get_file_hash C f) =
      (if truthy (dbGet (db2 C st) q) = true
        then dbGet (db2 C st) q else get_file_hash C g)
    rw [if_neg htr, if_neg htr]
    have hv1 : scanHash C st.srcDb q f = get_file_hash C f := by
      by_cases h1 : truthy (dbGet st.srcDb q) = true
      · exfalso
        apply htr
        rw [hdbq]
        show truthy (if truthy (dbGet st.srcDb q) = true
          then dbGet st.srcDb q else get_file_hash C f) = true
        rw [if_pos h1]
        exact h1
      · show (if truthy (dbGet st.srcDb q) = true
            then dbGet st.srcDb q else get_file_hash C f) = _
        rw [if_neg h1]
    have hg' := hg
    rw [ht3 q] at hg'
    have hnotdel : ¬ (q ∈ (sum1 C st).deleted ∧
        (lookupA (dF1 C st) q).isSome) := by
      rintro ⟨hmem, -⟩
      have h2 := ((mem_deleted_iff (sF1 C st) (dF1 C st) q).mp hmem).2
      rw [h2] at hsfq
      exact absurd hsfq (by simp)
    rw [if_neg hnotdel, lookupA_ld2] at hg'
    by_cases hcond : q ∈ copyRels (sum1 C st) (sF1 C st) ∧
        (lookupA st.srcTree q).isSome
    · rw [if_pos hcond, hf] at hg'
      injection hg' with hg'
      rw [hg']
    · rw [if_neg hcond] at hg'
      have hsome : (lookupA (sF1 C st) q).isSome := by
        rw [hsfq]
        rfl
      have hsrcSome : (lookupA st.srcTree q).isSome := by
        rw [hf]
        rfl
      have hnrels : q ∉ copyRels (sum1 C st) (sF1 C st) :=
        fun hr => hcond ⟨hr, hsrcSome⟩
      have hnmod : q ∉ (sum1 C st).modified := fun hn =>
        hnrels ((mem_copyRels_iff _ _ q).mpr ⟨hsome, Or.inr hn⟩)
      have hdfq : lookupA (dF1 C st) q =
          some (mkEntry C st.destRoot st.destDb q g) := by
        show lookupA (scan_folder C st.destRoot st.destTree st.destDb) q = _
        rw [lookupA_scan_folder, if_pos hinc, hg']
        rfl
      have heqh : (mkEntry C st.srcRoot st.srcDb q f).hash =
          (mkEntry C st.destRoot st.destDb q g).hash := by
        by_contra hne
        exact hnmod ((mem_modified_iff false (dF1 C st) q hndsF).mpr
          ⟨_, _, hsfq, hdfq, hne⟩)
      have hv2 : scanHash C st.destDb q g = get_file_hash C g := by
        by_cases h1 : truthy (dbGet st.destDb q) = true
        · exfalso
          apply htr
          rw [hdbq]
          have heqh' : scanHash C st.srcDb q f =
              scanHash C st.destDb q g := heqh
          rw [heqh']
          show truthy (if truthy (dbGet st.destDb q) = true
            then dbGet st.destDb q else get_file_hash C g) = true
          rw [if_pos h1]
          exact h1
        · show (if truthy (dbGet st.destDb q) = true
              then dbGet st.destDb q else get_file_hash C g) = _
          rw [if_neg h1]
      have hfin : get_file_hash C f = get_file_hash C g := by
        have h1 : scanHash C st.srcDb q f = scanHash C st.destDb q g := heqh
        rw [hv1, hv2] at h1
        exact h1
      rw [hfin]

/-! ### Claim C5 -/

/-- C5: running a Backup sync twice in a row with no filesystem
changes between the runs, with every prompt of the first run answered
affirmatively, yields a second-run summary with empty New, Modified,
and Deleted lists. -/
theorem c5_backup_idempotent (C : Ctx) (st : SyncState)
    (choice : String) (rest : List String) (res : SyncResult)
    (hnds : (st.srcTree.map Prod.fst).Nodup)
    (hy : ∀ s ∈ choice :: rest, s = "y")
    (hrun : sync C false false st (choice :: rest) = some res) :
    (scan_changes C false res.state).1.new = [] ∧
    (scan_changes C false res.state).1.modified = [] ∧
    (scan_changes C false res.state).1.deleted = [] := by
  have hc : choice = "y" := hy choice (List.mem_cons_self _ _)
  subst hc
  have hyr : ∀ s ∈ rest, s = "y" :=
    fun s hs => hy s (List.mem_cons_of_mem _ hs)
  rw [sync_confirmed_backup C st "y" rest (by decide)] at hrun
  split at hrun
  · exact absurd hrun (by simp)
  · rename_i t3 dels rem heq
    injection hrun with hrun
    subst hrun
    have ht3 : ∀ q, lookupA t3 q =
        if q ∈ (sum1 C st).deleted ∧ (lookupA (dF1 C st) q).isSome
        then none else lookupA (ld2 C st) q :=
      fun q => runDeletes_lookup_all_y (dF1 C st) ((sum1 C st).deleted)
        (ld2 C st) rest (t3, dels, rem) hyr heq q
    have hndsF : ((sF1 C st).map Prod.fst).Nodup :=
      scan_folder_keys_nodup hnds
    refine ⟨?_, ?_, ?_⟩
    · show (diffSummary false
          (scan_folder C st.srcRoot st.srcTree (db2 C st))
          (scan_folder C st.destRoot t3 (db2 C st))).new = []
      rw [List.eq_nil_iff_forall_not_mem]
      intro q hq
      obtain ⟨hs2, hd2⟩ := (mem_new_iff false _ _ q).mp hq
      obtain ⟨hinc, hsrc⟩ :=
        (scan_isSome_iff C st.srcRoot st.srcTree (db2 C st) q).mp hs2
      have hsome1 : (lookupA (sF1 C st) q).isSome :=
        (scan_isSome_iff C st.srcRoot st.srcTree st.srcDb q).mpr
          ⟨hinc, hsrc⟩
      have ht3some := src_present_after_backup C st t3 ht3 q hsome1
      have hsd : (lookupA (scan_folder C st.destRoot t3 (db2 C st))
          q).isSome :=
        (scan_isSome_iff C st.destRoot t3 (db2 C st) q).mpr
          ⟨hinc, ht3some⟩
      rw [hd2] at hsd
      exact absurd hsd (by simp)
    · show (diffSummary false
          (scan_folder C st.srcRoot st.srcTree (db2 C st))
          (scan_folder C st.destRoot t3 (db2 C st))).modified = []
      rw [List.eq_nil_iff_forall_not_mem]
      intro q hq
      have hnds2 : ((scan_folder C st.srcRoot st.srcTree
          (db2 C st)).map Prod.fst).Nodup := scan_folder_keys_nodup hnds
      obtain ⟨es, ed, hes, hed, hne⟩ :=
        (mem_modified_iff false _ q hnds2).mp hq
      rw [lookupA_scan_folder] at hes hed
      by_cases hinc : included C q = true
      · rw [if_pos hinc] at hes hed
        cases hf : lookupA st.srcTree q with
        | none =>
          rw [hf] at hes
          exact absurd hes (by simp)
        | some f =>
          rw [hf] at hes
          cases hg : lookupA t3 q with
          | none =>
            rw [hg] at hed
            exact absurd hed (by simp)
          | some g =>
            rw [hg] at hed
            simp only [Option.map_some'] at hes hed
            injection hes with hes
            injection hed with hed
            apply hne
            rw [← hes, ← hed]
            show scanHash C (db2 C st) q f = scanHash C (db2 C st) q g
            exact hash_agree_after_backup C st t3 hndsF ht3 q f g hinc hf hg
      · rw [if_neg hinc] at hes
        exact absurd hes (by simp)
    · show (diffSummary false
          (scan_folder C st.srcRoot st.srcTree (db2 C st))
          (scan_folder C st.destRoot t3 (db2 C st))).deleted = []
      rw [List.eq_nil_iff_forall_not_mem]
      intro q hq
      obtain ⟨hd2, hs2⟩ := (mem_deleted_iff _ _ q).mp hq
      obtain ⟨hinc, ht3some⟩ :=
        (scan_isSome_iff C st.destRoot t3 (db2 C st) q).mp hd2
      have hsrc := dest_present_after_backup C st t3 ht3 q hinc ht3some
      have hss : (lookupA (scan_folder C st.srcRoot st.srcTree
          (db2 C st)) q).isSome :=
        (scan_isSome_iff C st.srcRoot st.srcTree (db2 C st) q).mpr
          ⟨hinc, hsrc⟩
      rw [hs2] at hss
      exact absurd hss (by simp)

/-- C5 witness. -/
theorem c5_backup_idempotent_witness :
    (scan_changes CW false resW2.state).1.new = [] ∧
    (scan_changes CW false resW2.state).1.modified = [] ∧
    (scan_changes CW false resW2.state).1.deleted = [] :=
  c5_backup_idempotent CW stW2 "y" [] resW2 (by decide)
    (fun s hs => by simpa using hs) (by decide)

/-! ### Claim C6: the cache-file serialization

`FileSync.save_hash_db` is `json.dump(db, f, indent=2)` and
`FileSync.load_hash_db` is `json.load` (with malformed content
degraded to an empty mapping).  Both are modelled at the level of the
file's text, restricted to the cache schema: a JSON object mapping
strings to strings.  The serializer reproduces `json.dump`'s default
`ensure_ascii` output exactly: backslash and double quote get a
backslash prefix, the control characters with short escapes use them,
every other character outside printable ASCII is written as a
lowercase `\uXXXX` escape, with a surrogate pair for characters above
the basic multilingual plane. -/

/-- A lowercase hexadecimal digit (the `%04x` format). -/
def hexDigit (n : Nat) : Char :=
  if n < 10 then Char.ofNat (48 + n) else Char.ofNat (87 + n)

/-- A `\uXXXX` escape, four lowercase hex digits. -/
def uEscape (n : Nat) : List Char :=
  ['\\', 'u', hexDigit (n / 4096 % 16), hexDigit (n / 256 % 16),
    hexDigit (n / 16 % 16), hexDigit (n % 16)]

/-- The escape `json.dump` writes for a character outside the literal
range: the two-character shortcuts for backspace, tab, newline, form
feed and carriage return, a `\uXXXX` escape for every other character
below `0x10000`, and a UTF-16 surrogate pair above it. -/
def escControl (c : Char) : List Char :=
  if c = '\x08' then ['\\', 'b']
  else if c = '\t' then ['\\', 't']
  else if c = '\n' then ['\\', 'n']
  else if c = '\x0c' then ['\\', 'f']
  else if c = '\r' then ['\\', 'r']
  else if c.toNat < 65536 then uEscape c.toNat
  else uEscape (55296 + (c.toNat - 65536) / 1024) ++
    uEscape (56320 + (c.toNat - 65536) % 1024)

/-- JSON string-body escaping as `json.dump` performs it under its
default `ensure_ascii=True`: backslash and double quote get a
backslash prefix, characters in `0x20`–`0x7e` other than those two are
emitted verbatim, and everything else is escaped via `escControl`. -/
def escChars : List Char → List Char
  | [] => []
  | c :: cs =>
    if c = '\\' ∨ c = '\"' then '\\' :: c :: escChars cs
    else if c.toNat < 32 ∨ 127 ≤ c.toNat then escControl c ++ escChars cs
    else c :: escChars cs

/-- One serialized member: two-space indent, quoted key, `: `
separator, quoted value (the `indent=2` member format). -/
def pairChars (kv : String × String) : List Char :=
  ' ' :: ' ' :: '\"' :: (escChars kv.1.data ++
    ('\"' :: ':' :: ' ' :: '\"' :: (escChars kv.2.data ++ ['\"'])))

/-- The member lines joined by `,` and a newline. -/
def membersChars : List (String × String) → List Char
  | [] => []
  | [kv] => pairChars kv
  | kv :: rest => pairChars kv ++ ',' :: '\n' :: membersChars rest

/-- `FileSync.save_hash_db` at content level: the exact text
`json.dump(db, f, indent=2)` writes for a string-to-string mapping. -/
def save_hash_db (db : List (String × String)) : String :=
  if db = [] then String.mk ['\x7b', '\x7d']
  else String.mk ('\x7b' :: '\n' :: (membersChars db ++ ['\n', '\x7d']))

/-- JSON whitespace. -/
def isWs (c : Char) : Bool :=
  c == ' ' || c == '\n' || c == '\t' || c == '\r'

/-- Skip insignificant whitespace. -/
def skipWs (l : List Char) : List Char := l.dropWhile isWs

/-- JSON single-character escapes. -/
def unescape (c : Char) : Option Char :=
  if c = '\"' then some '\"'
  else if c = '\\' then some '\\'
  else if c = '/' then some '/'
  else if c = 'n' then some '\n'
  else if c = 't' then some '\t'
  else if c = 'r' then some '\r'
  else if c = 'b' then some (Char.ofNat 8)
  else if c = 'f' then some (Char.ofNat 12)
  else none

/-- The value of one hexadecimal digit, both cases accepted. -/
def hexVal (c : Char) : Option Nat :=
  if 48 ≤ c.toNat ∧ c.toNat ≤ 57 then some (c.toNat - 48)
  else if 97 ≤ c.toNat ∧ c.toNat ≤ 102 then some (c.toNat - 87)
  else if 65 ≤ c.toNat ∧ c.toNat ≤ 70 then some (c.toNat - 55)
  else none

/-- The value of a four-hex-digit group. -/
def hex4 (a b c d : Char) : Option Nat :=
  match hexVal a, hexVal b, hexVal c, hexVal d with
  | some x, some y, some z, some w =>
    some (((x * 16 + y) * 16 + z) * 16 + w)
  | _, _, _, _ => none

/-- Consume four hex digits. -/
def parseHex4 : List Char → Option (Nat × List Char)
  | d1 :: d2 :: d3 :: d4 :: rest =>
    match hex4 d1 d2 d3 d4 with
    | some n => some (n, rest)
    | none => none
  | _ => none

/-- Decode the tail of a `\uXXXX` escape whose leading group has value
`n`: a high surrogate must be followed by a `\uXXXX` low surrogate
(the pair denotes one astral character), a lone low surrogate denotes
no scalar value and is rejected, anything else is the character `n`
itself. -/
def parseU (n : Nat) (l : List Char) : Option (Char × List Char) :=
  if 55296 ≤ n ∧ n ≤ 56319 then
    match l with
    | e1 :: e2 :: rest =>
      if e1 = '\\' ∧ e2 = 'u' then
        match parseHex4 rest with
        | some (n2, rest4) =>
          if 56320 ≤ n2 ∧ n2 ≤ 57343 then
            some (Char.ofNat (65536 + (n - 55296) * 1024 + (n2 - 56320)),
              rest4)
          else none
        | none => none
      else none
    | _ => none
  else if 56320 ≤ n ∧ n ≤ 57343 then none
  else some (Char.ofNat n, l)

/-- Decode one escape sequence, after the backslash: the
single-character escapes, or `u` followed by four hex digits and
possibly a surrogate-pair partner. -/
def parseEsc (l : List Char) : Option (Char × List Char) :=
  match l with
  | [] => none
  | c2 :: rest2 =>
    if c2 = 'u' then
      match parseHex4 rest2 with
      | some (n, rest3) => parseU n rest3
      | none => none
    else
      match unescape c2 with
      | some c3 => some (c3, rest2)
      | none => none

theorem parseHex4_cons (d1 d2 d3 d4 : Char) (r : List Char) :
    parseHex4 (d1 :: d2 :: d3 :: d4 :: r) =
      match hex4 d1 d2 d3 d4 with
      | some n => some (n, r)
      | none => none := rfl

theorem parseHex4_length : ∀ (l : List Char) (n : Nat) (r : List Char),
    parseHex4 l = some (n, r) → r.length + 4 = l.length
  | d1 :: d2 :: d3 :: d4 :: rest, n, r, h => by
    rw [parseHex4_cons] at h
    split at h
    · injection h with h2
      injection h2 with h3 h4
      subst h4
      simp only [List.length_cons]
    · exact Option.noConfusion h
  | [], _, _, h => Option.noConfusion h
  | [_], _, _, h => Option.noConfusion h
  | [_, _], _, _, h => Option.noConfusion h
  | [_, _, _], _, _, h => Option.noConfusion h

theorem parseU_length (n : Nat) (l : List Char) (c : Char) (r : List Char)
    (h : parseU n l = some (c, r)) : r.length ≤ l.length := by
  unfold parseU at h
  split at h
  · split at h
    · split at h
      · split at h
        · split at h
          · rename_i rest n2 rest4 hh4 hrange
            injection h with h2
            injection h2 with h3 h4
            subst h4
            have h5 := parseHex4_length _ _ _ hh4
            simp only [List.length_cons]
            omega
          · exact Option.noConfusion h
        · exact Option.noConfusion h
      · exact Option.noConfusion h
    · exact Option.noConfusion h
  · split at h
    · exact Option.noConfusion h
    · injection h with h2
      injection h2 with h3 h4
      subst h4
      exact Nat.le_refl _

theorem parseEsc_length (l : List Char) (c : Char) (r : List Char)
    (h : parseEsc l = some (c, r)) : r.length < l.length := by
  unfold parseEsc at h
  split at h
  · exact Option.noConfusion h
  · rename_i c2 rest2
    split at h
    · split at h
      · rename_i n rest3 hh4
        have h5 := parseHex4_length _ _ _ hh4
        have h6 := parseU_length _ _ _ _ h
        simp only [List.length_cons]
        omega
      · exact Option.noConfusion h
    · split at h
      · injection h with h2
        injection h2 with h3 h4
        subst h4
        simp only [List.length_cons]
        omega
      · exact Option.noConfusion h

/-- Parse a JSON string body up to and through its closing quote:
raw characters, the single-character escapes, `\uXXXX` escapes, and
UTF-16 surrogate pairs.  A lone surrogate escape, which denotes no
Unicode scalar value (and which `save_hash_db` never emits), is
rejected. -/
def parseStringBody : List Char → Option (List Char × List Char)
  | [] => none
  | c :: rest =>
    if c = '\"' then some ([], rest)
    else if c = '\\' then
      match h : parseEsc rest with
      | none => none
      | some (c3, r) =>
        match parseStringBody r with
        | none => none
        | some (x, r2) => some (c3 :: x, r2)
    else if c.toNat < 32 then none
    else
      match parseStringBody rest with
      | none => none
      | some (x, r) => some (c :: x, r)
termination_by l => l.length
decreasing_by
  · have h2 := parseEsc_length _ _ _ h
    simp only [List.length_cons]
    omega
  · simp only [List.length_cons]
    omega

/-- Parse one `"key": "value"` member, with surrounding whitespace. -/
def parsePair (l : List Char) : Option ((String × String) × List Char) :=
  match skipWs l with
  | [] => none
  | c :: r1 =>
    if c = '\"' then
      match parseStringBody r1 with
      | none => none
      | some (k, r2) =>
        match skipWs r2 with
        | [] => none
        | c2 :: r3 =>
          if c2 = ':' then
            match skipWs r3 with
            | [] => none
            | c3 :: r4 =>
              if c3 = '\"' then
                match parseStringBody r4 with
                | none => none
                | some (v, r5) => some ((String.mk k, String.mk v), r5)
              else none
          else none
    else none

/-- Parse the members of a non-empty JSON object after the opening
brace; fuel bounds the member count. -/
def parseMembers :
    Nat → List Char → Option (List (String × String) × List Char)
  | 0, _ => none
  | fuel + 1, l =>
    match parsePair l with
    | none => none
    | some (kv, r) =>
      match skipWs r with
      | [] => none
      | c :: r2 =>
        if c = ',' then
          match parseMembers fuel r2 with
          | none => none
          | some (m, r3) => some (kv :: m, r3)
        else if c = '\x7d' then some ([kv], r2)
        else none

/-- Parse a whole cache file: a JSON object of string values followed
by nothing but whitespace. -/
def parseObj (s : String) : Option (List (String × String)) :=
  match skipWs s.data with
  | [] => none
  | c :: r =>
    if c = '\x7b' then
      match skipWs r with
      | [] => none
      | c2 :: r2 =>
        if c2 = '\x7d' then (if skipWs r2 = [] then some [] else none)
        else
          match parseMembers (r.length + 1) r with
          | none => none
          | some (m, rest) => if skipWs rest = [] then some m else none
    else none

/-- `FileSync.load_hash_db` at content level: parse the cache file,
degrading malformed content to the empty mapping. -/
def load_hash_db (s : String) : List (String × String) :=
  (parseObj s).getD []

theorem skipWs_cons_ws (c : Char) (h : isWs c = true) (l : List Char) :
    skipWs (c :: l) = skipWs l := by
  simp [skipWs, List.dropWhile, h]

theorem skipWs_cons_not (c : Char) (h : isWs c = false) (l : List Char) :
    skipWs (c :: l) = c :: l := by
  simp [skipWs, List.dropWhile, h]

theorem char_scalar_range (c : Char) :
    c.toNat < 55296 ∨ (57343 < c.toNat ∧ c.toNat < 1114112) := c.valid

theorem hexVal_hexDigit : ∀ n, n < 16 → hexVal (hexDigit n) = some n := by
  decide

theorem hex4_uDigits (n : Nat) (h : n < 65536) :
    hex4 (hexDigit (n / 4096 % 16)) (hexDigit (n / 256 % 16))
      (hexDigit (n / 16 % 16)) (hexDigit (n % 16)) = some n := by
  unfold hex4
  rw [hexVal_hexDigit _ (by omega), hexVal_hexDigit _ (by omega),
    hexVal_hexDigit _ (by omega), hexVal_hexDigit _ (by omega)]
  dsimp only
  congr 1
  omega

theorem parseHex4_uDigits (n : Nat) (h : n < 65536) (r : List Char) :
    parseHex4 (hexDigit (n / 4096 % 16) :: hexDigit (n / 256 % 16) ::
      hexDigit (n / 16 % 16) :: hexDigit (n % 16) :: r) = some (n, r) := by
  rw [parseHex4_cons, hex4_uDigits n h]

theorem uEscape_append (n : Nat) (l : List Char) :
    uEscape n ++ l = '\\' :: 'u' :: hexDigit (n / 4096 % 16) ::
      hexDigit (n / 256 % 16) :: hexDigit (n / 16 % 16) ::
      hexDigit (n % 16) :: l := rfl

theorem parseEsc_short (c0 x0 : Char) (hx : ¬ x0 = 'u')
    (hu : unescape x0 = some c0) (rest : List Char) :
    parseEsc (x0 :: rest) = some (c0, rest) := by
  unfold parseEsc
  dsimp only
  rw [if_neg hx, hu]

theorem parseEsc_u (n : Nat) (rest3 : List Char) (hlt : n < 65536)
    (hs1 : ¬ (55296 ≤ n ∧ n ≤ 56319))
    (hs2 : ¬ (56320 ≤ n ∧ n ≤ 57343)) :
    parseEsc ('u' :: hexDigit (n / 4096 % 16) :: hexDigit (n / 256 % 16) ::
      hexDigit (n / 16 % 16) :: hexDigit (n % 16) :: rest3) =
      some (Char.ofNat n, rest3) := by
  unfold parseEsc
  dsimp only
  rw [if_pos rfl, parseHex4_uDigits n hlt]
  dsimp only
  unfold parseU
  rw [if_neg hs1, if_neg hs2]

theorem parseEsc_pair (n : Nat) (rest4 : List Char) (hge : 65536 ≤ n)
    (hlt : n < 1114112) :
    parseEsc ('u' ::
      hexDigit ((55296 + (n - 65536) / 1024) / 4096 % 16) ::
      hexDigit ((55296 + (n - 65536) / 1024) / 256 % 16) ::
      hexDigit ((55296 + (n - 65536) / 1024) / 16 % 16) ::
      hexDigit ((55296 + (n - 65536) / 1024) % 16) ::
      '\\' :: 'u' ::
      hexDigit ((56320 + (n - 65536) % 1024) / 4096 % 16) ::
      hexDigit ((56320 + (n - 65536) % 1024) / 256 % 16) ::
      hexDigit ((56320 + (n - 65536) % 1024) / 16 % 16) ::
      hexDigit ((56320 + (n - 65536) % 1024) % 16) :: rest4) =
      some (Char.ofNat n, rest4) := by
  have hA : 55296 + (n - 65536) / 1024 < 65536 := by omega
  have hB : 56320 + (n - 65536) % 1024 < 65536 := by omega
  unfold parseEsc
  dsimp only
  rw [if_pos rfl, parseHex4_uDigits _ hA]
  dsimp only
  unfold parseU
  rw [if_pos (by omega : 55296 ≤ 55296 + (n - 65536) / 1024 ∧
    55296 + (n - 65536) / 1024 ≤ 56319)]
  dsimp only
  rw [if_pos (by decide : ('\\' : Char) = '\\' ∧ ('u' : Char) = 'u'),
    parseHex4_uDigits _ hB]
  dsimp only
  rw [if_pos (by omega : 56320 ≤ 56320 + (n - 65536) % 1024 ∧
    56320 + (n - 65536) % 1024 ≤ 57343)]
  rw [show 65536 + (55296 + (n - 65536) / 1024 - 55296) * 1024 +
    (56320 + (n - 65536) % 1024 - 56320) = n from by omega]

theorem parseStringBody_backslash (l : List Char) (c0 : Char)
    (r : List Char) (h : parseEsc l = some (c0, r)) :
    parseStringBody ('\\' :: l) =
      match parseStringBody r with
      | none => none
      | some (x, r2) => some (c0 :: x, r2) := by
  rw [parseStringBody]
  rw [if_neg (by decide : ¬(('\\' : Char) = '\"')), if_pos rfl]
  split
  · rename_i heq
    rw [h] at heq
    exact Option.noConfusion heq
  · rename_i c3 r2 heq
    rw [h] at heq
    injection heq with h2
    injection h2 with h3 h4
    subst h3
    subst h4
    rfl

theorem parseStringBody_escChars (s : List Char) (rest : List Char) :
    parseStringBody (escChars s ++ '\"' :: rest) = some (s, rest) := by
  induction s with
  | nil =>
    show parseStringBody ('\"' :: rest) = some ([], rest)
    rw [parseStringBody, if_pos rfl]
  | cons c cs ih =>
    by_cases hb : c = '\\' ∨ c = '\"'
    · have hesc : escChars (c :: cs) = '\\' :: c :: escChars cs := by
        rw [escChars, if_pos hb]
      have hu : unescape c = some c := by
        rcases hb with h | h <;> subst h <;> rfl
      have hnu : ¬ c = 'u' := by
        rcases hb with h | h <;> subst h <;> decide
      rw [hesc, List.cons_append, List.cons_append,
        parseStringBody_backslash _ _ _ (parseEsc_short c c hnu hu _), ih]
    · by_cases hctl : c.toNat < 32 ∨ 127 ≤ c.toNat
      · have hesc : escChars (c :: cs) = escControl c ++ escChars cs := by
          rw [escChars, if_neg hb, if_pos hctl]
        rw [hesc, List.append_assoc]
        by_cases h8 : c = '\x08'
        · subst h8
          rw [show escControl '\x08' ++ (escChars cs ++ '\"' :: rest) =
            '\\' :: 'b' :: (escChars cs ++ '\"' :: rest) from rfl]
          rw [parseStringBody_backslash _ _ _
            (parseEsc_short '\x08' 'b' (by decide) (by decide) _), ih]
        · by_cases ht : c = '\t'
          · subst ht
            rw [show escControl '\t' ++ (escChars cs ++ '\"' :: rest) =
              '\\' :: 't' :: (escChars cs ++ '\"' :: rest) from rfl]
            rw [parseStringBody_backslash _ _ _
              (parseEsc_short '\t' 't' (by decide) (by decide) _), ih]
          · by_cases hnl : c = '\n'
            · subst hnl
              rw [show escControl '\n' ++ (escChars cs ++ '\"' :: rest) =
                '\\' :: 'n' :: (escChars cs ++ '\"' :: rest) from rfl]
              rw [parseStringBody_backslash _ _ _
                (parseEsc_short '\n' 'n' (by decide) (by decide) _), ih]
            · by_cases hff : c = '\x0c'
              · subst hff
                rw [show escControl '\x0c' ++ (escChars cs ++ '\"' :: rest) =
                  '\\' :: 'f' :: (escChars cs ++ '\"' :: rest) from rfl]
                rw [parseStringBody_backslash _ _ _
                  (parseEsc_short '\x0c' 'f' (by decide) (by decide) _), ih]
              · by_cases hcr : c = '\r'
                · subst hcr
                  rw [show escControl '\r' ++ (escChars cs ++ '\"' :: rest) =
                    '\\' :: 'r' :: (escChars cs ++ '\"' :: rest) from rfl]
                  rw [parseStringBody_backslash _ _ _
                    (parseEsc_short '\r' 'r' (by decide) (by decide) _), ih]
                · have hvr := char_scalar_range c
                  by_cases hlt : c.toNat < 65536
                  · have hesc2 : escControl c = uEscape c.toNat := by
                      rw [escControl, if_neg h8, if_neg ht, if_neg hnl,
                        if_neg hff, if_neg hcr, if_pos hlt]
                    rw [hesc2, uEscape_append,
                      parseStringBody_backslash _ _ _
                        (parseEsc_u c.toNat _ hlt (by omega) (by omega)),
                      ih, Char.ofNat_toNat]
                  · have hesc2 : escControl c =
                        uEscape (55296 + (c.toNat - 65536) / 1024) ++
                          uEscape (56320 + (c.toNat - 65536) % 1024) := by
                      rw [escControl, if_neg h8, if_neg ht, if_neg hnl,
                        if_neg hff, if_neg hcr, if_neg hlt]
                    rw [hesc2, List.append_assoc, uEscape_append,
                      uEscape_append,
                      parseStringBody_backslash _ _ _
                        (parseEsc_pair c.toNat _ (by omega) (by omega)),
                      ih, Char.ofNat_toNat]
      · have h1 : ¬ c = '\\' := fun h => hb (Or.inl h)
        have h2 : ¬ c = '\"' := fun h => hb (Or.inr h)
        have h3 : ¬ c.toNat < 32 := fun h => hctl (Or.inl h)
        have hesc : escChars (c :: cs) = c :: escChars cs := by
          rw [escChars, if_neg hb, if_neg hctl]
        rw [hesc, List.cons_append, parseStringBody]
        rw [if_neg h2, if_neg h1, if_neg h3, ih]

theorem skipWs_append_ws (pre l : List Char) (h : pre.all isWs = true) :
    skipWs (pre ++ l) = skipWs l := by
  revert h
  induction pre with
  | nil => intro _; rfl
  | cons c cs ih =>
    intro h
    simp only [List.all_cons, Bool.and_eq_true] at h
    rw [List.cons_append, skipWs_cons_ws c h.1, ih h.2]

theorem parsePair_pairChars (pre : List Char) (k v : String)
    (rest : List Char) (hpre : pre.all isWs = true) :
    parsePair (pre ++ (pairChars (k, v) ++ rest)) = some ((k, v), rest) := by
  have hshape : pre ++ (pairChars (k, v) ++ rest) =
      pre ++ (' ' :: ' ' :: '\"' :: (escChars k.data ++
        ('\"' :: ':' :: ' ' :: '\"' :: (escChars v.data ++
          ('\"' :: rest))))) := by
    simp [pairChars, List.append_assoc]
  unfold parsePair
  rw [hshape, skipWs_append_ws _ _ hpre,
    skipWs_cons_ws _ (by decide), skipWs_cons_ws _ (by decide),
    skipWs_cons_not _ (by decide)]
  dsimp only
  rw [if_pos rfl, parseStringBody_escChars k.data]
  dsimp only
  rw [skipWs_cons_not _ (by decide)]
  dsimp only
  rw [if_pos rfl, skipWs_cons_ws _ (by decide),
    skipWs_cons_not _ (by decide)]
  dsimp only
  rw [if_pos rfl, parseStringBody_escChars v.data]

theorem parseMembers_membersChars (m : List (String × String)) :
    ∀ (fuel : Nat) (pre : List Char), m ≠ [] → m.length ≤ fuel + 1 →
      pre.all isWs = true →
      parseMembers (fuel + 1) (pre ++ (membersChars m ++ ['\n', '\x7d'])) =
        some (m, []) := by
  induction m with
  | nil =>
    intro fuel pre hne
    exact absurd rfl hne
  | cons kv m ih =>
    intro fuel pre _ hlen hpre
    obtain ⟨k, v⟩ := kv
    cases m with
    | nil =>
      show parseMembers (fuel + 1)
        (pre ++ (pairChars (k, v) ++ ['\n', '\x7d'])) = some ([(k, v)], [])
      rw [parseMembers, parsePair_pairChars pre k v ['\n', '\x7d'] hpre]
      dsimp only
      rw [skipWs_cons_ws _ (by decide), skipWs_cons_not _ (by decide)]
      dsimp only
      rw [if_neg (by decide : ¬('\x7d' = ',')), if_pos rfl]
    | cons kv2 m3 =>
      have hshape : pre ++ (membersChars ((k, v) :: kv2 :: m3) ++
          ['\n', '\x7d']) =
          pre ++ (pairChars (k, v) ++ (',' :: '\n' ::
            (membersChars (kv2 :: m3) ++ ['\n', '\x7d']))) := by
        simp [membersChars, List.append_assoc]
      rw [hshape]
      cases fuel with
      | zero =>
        simp only [List.length_cons] at hlen
        omega
      | succ fuel2 =>
        rw [parseMembers, parsePair_pairChars pre k v _ hpre]
        dsimp only
        rw [skipWs_cons_not _ (by decide)]
        dsimp only
        rw [if_pos rfl]
        rw [show ('\n' :: (membersChars (kv2 :: m3) ++ ['\n', '\x7d'])) =
          ['\n'] ++ (membersChars (kv2 :: m3) ++ ['\n', '\x7d']) from rfl]
        rw [ih fuel2 ['\n'] (by simp)
          (by simp only [List.length_cons] at hlen ⊢; omega) (by decide)]

theorem pairChars_length_pos (kv : String × String) :
    1 ≤ (pairChars kv).length := by
  simp [pairChars]

theorem membersChars_length (m : List (String × String)) :
    m.length ≤ (membersChars m).length := by
  induction m with
  | nil => simp [membersChars]
  | cons kv m ih =>
    cases m with
    | nil =>
      show 1 ≤ (pairChars kv).length
      exact pairChars_length_pos kv
    | cons kv2 m2 =>
      show (kv2 :: m2).length + 1 ≤
        (pairChars kv ++ ',' :: '\n' :: membersChars (kv2 :: m2)).length
      rw [List.length_append]
      have h1 := pairChars_length_pos kv
      simp only [List.length_cons] at ih ⊢
      omega

theorem skipWs_pairChars_append (kv : String × String) (l : List Char) :
    skipWs (pairChars kv ++ l) =
      '\"' :: ((escChars kv.1.data ++
        ('\"' :: ':' :: ' ' :: '\"' :: (escChars kv.2.data ++ ['\"']))) ++ l) := by
  obtain ⟨k, v⟩ := kv
  show skipWs ((' ' :: ' ' :: '\"' :: (escChars k.data ++
    ('\"' :: ':' :: ' ' :: '\"' :: (escChars v.data ++ ['\"'])))) ++ l) = _
  rw [List.cons_append, List.cons_append, List.cons_append,
    skipWs_cons_ws _ (by decide), skipWs_cons_ws _ (by decide),
    skipWs_cons_not _ (by decide)]

theorem membersChars_cons_append (kv : String × String)
    (m : List (String × String)) (l : List Char) :
    ∃ l2, membersChars (kv :: m) ++ l = pairChars kv ++ l2 := by
  cases m with
  | nil => exact ⟨l, rfl⟩
  | cons kv2 m3 =>
    exact ⟨',' :: '\n' :: (membersChars (kv2 :: m3) ++ l),
      by simp [membersChars, List.append_assoc]⟩

/-! ### Claim C6 -/

/-- C6: saving any mapping of relative-path strings to hex-digest
strings with `save_hash_db` and loading the resulting file text with
`load_hash_db` returns the mapping unchanged. -/
theorem c6_cache_roundtrip (m : List (String × String)) :
    load_hash_db (save_hash_db m) = m := by
  unfold load_hash_db
  cases m with
  | nil =>
    show (parseObj (save_hash_db [])).getD [] = []
    rfl
  | cons kv m2 =>
    have hobj : parseObj (save_hash_db (kv :: m2)) = some (kv :: m2) := by
      show parseObj (String.mk ('\x7b' :: '\n' ::
        (membersChars (kv :: m2) ++ ['\n', '\x7d']))) = _
      unfold parseObj
      rw [show (String.mk ('\x7b' :: '\n' ::
          (membersChars (kv :: m2) ++ ['\n', '\x7d']))).data =
        '\x7b' :: '\n' :: (membersChars (kv :: m2) ++ ['\n', '\x7d'])
        from rfl]
      rw [skipWs_cons_not _ (by decide)]
      dsimp only
      rw [if_pos rfl]
      obtain ⟨l2, hl2⟩ :=
        membersChars_cons_append kv m2 ['\n', '\x7d']
      have hskipr : skipWs ('\n' ::
          (membersChars (kv :: m2) ++ ['\n', '\x7d'])) =
          '\"' :: ((escChars kv.1.data ++
            ('\"' :: ':' :: ' ' :: '\"' ::
              (escChars kv.2.data ++ ['\"']))) ++ l2) := by
        rw [skipWs_cons_ws _ (by decide), hl2, skipWs_pairChars_append]
      rw [hskipr]
      dsimp only
      rw [if_neg (by decide : ¬('\"' = '\x7d'))]
      have hmem := parseMembers_membersChars (kv :: m2)
        ((['\n'] ++ (membersChars (kv :: m2) ++ ['\n', '\x7d'])).length)
        ['\n'] (by simp)
        (by
          have h1 := membersChars_length (kv :: m2)
          simp only [List.length_append, List.length_cons] at h1 ⊢
          omega)
        (by decide)
      rw [show ('\n' :: (membersChars (kv :: m2) ++ ['\n', '\x7d'])) =
        ['\n'] ++ (membersChars (kv :: m2) ++ ['\n', '\x7d']) from rfl]
      rw [hmem]
      rfl
    rw [hobj]
    rfl


end FileSync
